import Mathlib

/-!
Verification of the Rubik cube core of `rubix.py`.

The embedding mirrors the source:
* `Grid` is one face: a 3 x 3 array of color characters, stored row-major
  (`m11` is row 0 / column 0, `m13` is row 0 / column 2, and so on).
* `Faces` is the `self.faces` dictionary: one `Grid` per `Face` enum member.
* `RubiksCube` bundles the faces with `self.move_history`.
* Each Python method that mutates `self` becomes a function returning the
  new value; sequential statements become sequential `let` rebindings so
  every read sees exactly the writes that precede it, as in the source.
* The apostrophe character of the primed move tokens is produced with
  `Char.ofNat 39`.
-/

structure Grid where
  m11 : Char
  m12 : Char
  m13 : Char
  m21 : Char
  m22 : Char
  m23 : Char
  m31 : Char
  m32 : Char
  m33 : Char
deriving DecidableEq, Repr

/-- The `self.faces` dictionary of `RubiksCube.__init__`. -/
structure Faces where
  front : Grid
  back : Grid
  left : Grid
  right : Grid
  up : Grid
  down : Grid
deriving DecidableEq, Repr

structure RubiksCube where
  faces : Faces
  move_history : List String
deriving DecidableEq, Repr

/-- `[[c] * 3 for _ in range(3)]`: a face filled with one color. -/
def solidGrid (c : Char) : Grid := ⟨c, c, c, c, c, c, c, c, c⟩

/-- `RubiksCube.__init__`: the solved construction with empty history. -/
def initial_cube : RubiksCube :=
  { faces :=
      { front := solidGrid 'G'
        back := solidGrid 'B'
        left := solidGrid 'O'
        right := solidGrid 'R'
        up := solidGrid 'W'
        down := solidGrid 'Y' }
    move_history := [] }

/-- `RubiksCube.copy`: a deep copy, faces and history included. -/
def copy (cube : RubiksCube) : RubiksCube :=
  { faces :=
      { front := cube.faces.front
        back := cube.faces.back
        left := cube.faces.left
        right := cube.faces.right
        up := cube.faces.up
        down := cube.faces.down }
    move_history := cube.move_history }

/-- `rotate_face_clockwise`: `new[j][2-i] = old[i][j]`. -/
def rotate_face_clockwise (g : Grid) : Grid :=
  { m11 := g.m31, m12 := g.m21, m13 := g.m11
    m21 := g.m32, m22 := g.m22, m23 := g.m12
    m31 := g.m33, m32 := g.m23, m33 := g.m13 }

/-- `rotate_face_counterclockwise`: three clockwise rotations. -/
def rotate_face_counterclockwise (g : Grid) : Grid :=
  rotate_face_clockwise (rotate_face_clockwise (rotate_face_clockwise g))

/-- `get_row(face, row_idx)` for the indices 0, 1, 2 used by the source. -/
def get_row (g : Grid) (row_idx : Nat) : List Char :=
  match row_idx with
  | 0 => [g.m11, g.m12, g.m13]
  | 1 => [g.m21, g.m22, g.m23]
  | _ => [g.m31, g.m32, g.m33]

/-- `get_col(face, col_idx)` for the indices 0, 1, 2 used by the source. -/
def get_col (g : Grid) (col_idx : Nat) : List Char :=
  match col_idx with
  | 0 => [g.m11, g.m21, g.m31]
  | 1 => [g.m12, g.m22, g.m32]
  | _ => [g.m13, g.m23, g.m33]

/-- `set_row(face, row_idx, values)`; the source always passes 3 values. -/
def set_row (g : Grid) (row_idx : Nat) (values : List Char) : Grid :=
  match values with
  | x :: y :: z :: _ =>
    match row_idx with
    | 0 => { g with m11 := x, m12 := y, m13 := z }
    | 1 => { g with m21 := x, m22 := y, m23 := z }
    | _ => { g with m31 := x, m32 := y, m33 := z }
  | _ => g

/-- `set_col(face, col_idx, values)`; the source always passes 3 values. -/
def set_col (g : Grid) (col_idx : Nat) (values : List Char) : Grid :=
  match values with
  | x :: y :: z :: _ =>
    match col_idx with
    | 0 => { g with m11 := x, m21 := y, m31 := z }
    | 1 => { g with m12 := x, m22 := y, m32 := z }
    | _ => { g with m13 := x, m23 := y, m33 := z }
  | _ => g

/-- `rotate_front`: front face rotation plus the adjacent band cycle. -/
def rotate_front (fs : Faces) (clockwise : Bool) : Faces :=
  if clockwise then
    let fs := { fs with front := rotate_face_clockwise fs.front }
    let temp := get_row fs.up 2
    let fs := { fs with up := set_row fs.up 2 (get_col fs.left 2).reverse }
    let fs := { fs with left := set_col fs.left 2 (get_row fs.down 0) }
    let fs := { fs with down := set_row fs.down 0 (get_col fs.right 0).reverse }
    let fs := { fs with right := set_col fs.right 0 temp }
    fs
  else
    let fs := { fs with front := rotate_face_counterclockwise fs.front }
    let temp := get_row fs.up 2
    let fs := { fs with up := set_row fs.up 2 (get_col fs.right 0) }
    let fs := { fs with right := set_col fs.right 0 (get_row fs.down 0).reverse }
    let fs := { fs with down := set_row fs.down 0 (get_col fs.left 2) }
    let fs := { fs with left := set_col fs.left 2 temp.reverse }
    fs

/-- `rotate_right`. -/
def rotate_right (fs : Faces) (clockwise : Bool) : Faces :=
  if clockwise then
    let fs := { fs with right := rotate_face_clockwise fs.right }
    let temp := get_col fs.up 2
    let fs := { fs with up := set_col fs.up 2 (get_col fs.front 2) }
    let fs := { fs with front := set_col fs.front 2 (get_col fs.down 2) }
    let fs := { fs with down := set_col fs.down 2 (get_col fs.back 0).reverse }
    let fs := { fs with back := set_col fs.back 0 temp.reverse }
    fs
  else
    let fs := { fs with right := rotate_face_counterclockwise fs.right }
    let temp := get_col fs.up 2
    let fs := { fs with up := set_col fs.up 2 (get_col fs.back 0).reverse }
    let fs := { fs with back := set_col fs.back 0 (get_col fs.down 2).reverse }
    let fs := { fs with down := set_col fs.down 2 (get_col fs.front 2) }
    let fs := { fs with front := set_col fs.front 2 temp }
    fs

/-- `rotate_up`. -/
def rotate_up (fs : Faces) (clockwise : Bool) : Faces :=
  if clockwise then
    let fs := { fs with up := rotate_face_clockwise fs.up }
    let temp := get_row fs.front 0
    let fs := { fs with front := set_row fs.front 0 (get_row fs.right 0) }
    let fs := { fs with right := set_row fs.right 0 (get_row fs.back 0) }
    let fs := { fs with back := set_row fs.back 0 (get_row fs.left 0) }
    let fs := { fs with left := set_row fs.left 0 temp }
    fs
  else
    let fs := { fs with up := rotate_face_counterclockwise fs.up }
    let temp := get_row fs.front 0
    let fs := { fs with front := set_row fs.front 0 (get_row fs.left 0) }
    let fs := { fs with left := set_row fs.left 0 (get_row fs.back 0) }
    let fs := { fs with back := set_row fs.back 0 (get_row fs.right 0) }
    let fs := { fs with right := set_row fs.right 0 temp }
    fs

/-- `rotate_left`. -/
def rotate_left (fs : Faces) (clockwise : Bool) : Faces :=
  if clockwise then
    let fs := { fs with left := rotate_face_clockwise fs.left }
    let temp := get_col fs.up 0
    let fs := { fs with up := set_col fs.up 0 (get_col fs.back 2).reverse }
    let fs := { fs with back := set_col fs.back 2 (get_col fs.down 0).reverse }
    let fs := { fs with down := set_col fs.down 0 (get_col fs.front 0) }
    let fs := { fs with front := set_col fs.front 0 temp }
    fs
  else
    let fs := { fs with left := rotate_face_counterclockwise fs.left }
    let temp := get_col fs.up 0
    let fs := { fs with up := set_col fs.up 0 (get_col fs.front 0) }
    let fs := { fs with front := set_col fs.front 0 (get_col fs.down 0) }
    let fs := { fs with down := set_col fs.down 0 (get_col fs.back 2).reverse }
    let fs := { fs with back := set_col fs.back 2 temp.reverse }
    fs

/-- `rotate_down`. -/
def rotate_down (fs : Faces) (clockwise : Bool) : Faces :=
  if clockwise then
    let fs := { fs with down := rotate_face_clockwise fs.down }
    let temp := get_row fs.front 2
    let fs := { fs with front := set_row fs.front 2 (get_row fs.left 2) }
    let fs := { fs with left := set_row fs.left 2 (get_row fs.back 2) }
    let fs := { fs with back := set_row fs.back 2 (get_row fs.right 2) }
    let fs := { fs with right := set_row fs.right 2 temp }
    fs
  else
    let fs := { fs with down := rotate_face_counterclockwise fs.down }
    let temp := get_row fs.front 2
    let fs := { fs with front := set_row fs.front 2 (get_row fs.right 2) }
    let fs := { fs with right := set_row fs.right 2 (get_row fs.back 2) }
    let fs := { fs with back := set_row fs.back 2 (get_row fs.left 2) }
    let fs := { fs with left := set_row fs.left 2 temp }
    fs

/-- `rotate_back`. -/
def rotate_back (fs : Faces) (clockwise : Bool) : Faces :=
  if clockwise then
    let fs := { fs with back := rotate_face_clockwise fs.back }
    let temp := get_row fs.up 0
    let fs := { fs with up := set_row fs.up 0 (get_col fs.right 2) }
    let fs := { fs with right := set_col fs.right 2 (get_row fs.down 2).reverse }
    let fs := { fs with down := set_row fs.down 2 (get_col fs.left 0) }
    let fs := { fs with left := set_col fs.left 0 temp.reverse }
    fs
  else
    let fs := { fs with back := rotate_face_counterclockwise fs.back }
    let temp := get_row fs.up 0
    let fs := { fs with up := set_row fs.up 0 (get_col fs.left 0).reverse }
    let fs := { fs with left := set_col fs.left 0 (get_row fs.down 2) }
    let fs := { fs with down := set_row fs.down 2 (get_col fs.right 2).reverse }
    let fs := { fs with right := set_col fs.right 2 temp }
    fs

/-! ### Move tokens and move application -/

/-- The apostrophe character used by the primed move tokens. -/
def primeChar : Char := Char.ofNat 39

def sF : String := "F"
def sFp : String := "F".push primeChar
def sR : String := "R"
def sRp : String := "R".push primeChar
def sU : String := "U"
def sUp : String := "U".push primeChar
def sL : String := "L"
def sLp : String := "L".push primeChar
def sD : String := "D"
def sDp : String := "D".push primeChar
def sB : String := "B"
def sBp : String := "B".push primeChar

/-- `CubeSolver.self.moves` and `RubiksCube.scramble.move_options`: the 12
canonical tokens in source order. -/
def moves12 : List String :=
  [sF, sFp, sR, sRp, sU, sUp, sL, sLp, sD, sDp, sB, sBp]

/-- The `move_map` dictionary of `apply_move` (also `CubeSolver.move_map`):
token to rotation method plus clockwise flag; `none` for unknown tokens. -/
def move_map (move : String) : Option ((Faces → Bool → Faces) × Bool) :=
  if move = sF then some (rotate_front, true)
  else if move = sFp then some (rotate_front, false)
  else if move = sR then some (rotate_right, true)
  else if move = sRp then some (rotate_right, false)
  else if move = sU then some (rotate_up, true)
  else if move = sUp then some (rotate_up, false)
  else if move = sL then some (rotate_left, true)
  else if move = sLp then some (rotate_left, false)
  else if move = sD then some (rotate_down, true)
  else if move = sDp then some (rotate_down, false)
  else if move = sB then some (rotate_back, true)
  else if move = sBp then some (rotate_back, false)
  else none

/-- `RubiksCube.apply_move`: dispatch through `move_map`; a token outside the
map leaves the cube untouched; a tracked move is appended to the history. -/
def apply_move (cube : RubiksCube) (move : String) (track_history : Bool) :
    RubiksCube :=
  match move_map move with
  | some (f, clockwise) =>
    let cube := { cube with faces := f cube.faces clockwise }
    if track_history then
      { cube with move_history := cube.move_history ++ [move] }
    else cube
  | none => cube

/-- `RubiksCube.apply_moves` on an already-split token list. -/
def apply_moves_list (cube : RubiksCube) (moves : List String)
    (track_history : Bool) : RubiksCube :=
  moves.foldl (fun c m => apply_move c m track_history) cube

/-- The face transform a token performs (identity for unknown tokens). -/
def moveFaces (move : String) (fs : Faces) : Faces :=
  match move_map move with
  | some (f, clockwise) => f fs clockwise
  | none => fs

/-- `RubiksCube.get_reverse_move`: strip a trailing apostrophe, or append
one.  The source tests `move.endswith("'")` and slices `move[:-1]`; both are
rendered on the character list of the string. -/
def get_reverse_move (move : String) : String :=
  if move.data.getLast? = some primeChar then String.mk move.data.dropLast
  else move.push primeChar

/-- `RubiksCube.get_perfect_solution`: empty history gives the empty path,
otherwise each history move is inverted, last-applied first. -/
def get_perfect_solution (cube : RubiksCube) : List String :=
  if cube.move_history = [] then []
  else cube.move_history.reverse.map get_reverse_move

/-! ### Serialization and the solved predicate -/

/-- The nine facelets of one face, rows top to bottom, columns left to
right. -/
def gridChars (g : Grid) : List Char :=
  [g.m11, g.m12, g.m13, g.m21, g.m22, g.m23, g.m31, g.m32, g.m33]

/-- The 54 facelets in the fixed face order UP, RIGHT, FRONT, DOWN, LEFT,
BACK used by `get_state_string`. -/
def stateChars (fs : Faces) : List Char :=
  gridChars fs.up ++ gridChars fs.right ++ gridChars fs.front ++
    gridChars fs.down ++ gridChars fs.left ++ gridChars fs.back

/-- `RubiksCube.get_state_string`. -/
def get_state_string (cube : RubiksCube) : String :=
  String.mk (stateChars cube.faces)

/-- All nine facelets of a face equal the target color. -/
def gridAll (g : Grid) (target : Char) : Bool :=
  (g.m11 = target) && (g.m12 = target) && (g.m13 = target) &&
  (g.m21 = target) && (g.m22 = target) && (g.m23 = target) &&
  (g.m31 = target) && (g.m32 = target) && (g.m33 = target)

/-- `RubiksCube.is_solved`: every facelet matches its face target color, the
faces visited in the order of the `target_colors` dictionary. -/
def is_solved (cube : RubiksCube) : Bool :=
  gridAll cube.faces.front 'G' && gridAll cube.faces.back 'B' &&
  gridAll cube.faces.left 'O' && gridAll cube.faces.right 'R' &&
  gridAll cube.faces.up 'W' && gridAll cube.faces.down 'Y'

/-- `RubiksCube.get_kociemba_string` (the available case): same face order
as `get_state_string`, colors renamed to the kociemba letters. -/
def kociembaLetter (c : Char) : Char :=
  if c = 'W' then 'U'
  else if c = 'R' then 'R'
  else if c = 'G' then 'F'
  else if c = 'Y' then 'D'
  else if c = 'O' then 'L'
  else if c = 'B' then 'B'
  else 'U'

def get_kociemba_string (cube : RubiksCube) : String :=
  String.mk ((stateChars cube.faces).map kociembaLetter)


/-! ### Basic lemmas about the embedding -/

lemma copy_eq (cube : RubiksCube) : copy cube = cube := rfl

lemma apply_move_faces (cube : RubiksCube) (m : String) (b : Bool) :
    (apply_move cube m b).faces = moveFaces m cube.faces := by
  simp only [apply_move, moveFaces]
  rcases move_map m with _ | ⟨f, cw⟩
  · rfl
  · cases b <;> rfl

lemma apply_moves_list_append (cube : RubiksCube) (ms : List String)
    (m : String) (b : Bool) :
    apply_moves_list cube (ms ++ [m]) b =
      apply_move (apply_moves_list cube ms b) m b := by
  simp [apply_moves_list, List.foldl_append]

lemma apply_moves_list_cons (cube : RubiksCube) (m : String)
    (ms : List String) (b : Bool) :
    apply_moves_list cube (m :: ms) b =
      apply_moves_list (apply_move cube m b) ms b := rfl

lemma apply_moves_list_nil (cube : RubiksCube) (b : Bool) :
    apply_moves_list cube [] b = cube := rfl

/-- Applying a canonical move and then its reverse restores the grids. -/
lemma move_inverse_restores_faces (cube : RubiksCube) (m : String)
    (b1 b2 : Bool) (hm : m ∈ moves12) :
    (apply_move (apply_move cube m b1) (get_reverse_move m) b2).faces =
      cube.faces := by
  rw [apply_move_faces, apply_move_faces]
  obtain ⟨⟨⟨f1, f2, f3, f4, f5, f6, f7, f8, f9⟩,
    ⟨k1, k2, k3, k4, k5, k6, k7, k8, k9⟩,
    ⟨l1, l2, l3, l4, l5, l6, l7, l8, l9⟩,
    ⟨r1, r2, r3, r4, r5, r6, r7, r8, r9⟩,
    ⟨u1, u2, u3, u4, u5, u6, u7, u8, u9⟩,
    ⟨d1, d2, d3, d4, d5, d6, d7, d8, d9⟩⟩, hist⟩ := cube
  simp only [moves12, List.mem_cons, List.not_mem_nil, or_false] at hm
  rcases hm with rfl | rfl | rfl | rfl | rfl | rfl | rfl | rfl | rfl | rfl |
    rfl | rfl <;> rfl

/-- **C1.** For every one of the 12 canonical move tokens `m` and every cube
state, applying `m` and then applying the prime-toggled token returned by
`get_reverse_move` restores the state exactly, grid-wise: every facelet of
every face equals its value before the two moves (for any history-tracking
flags). -/
theorem C1_move_then_inverse_restores (cube : RubiksCube) (m : String)
    (b1 b2 : Bool) (hm : m ∈ moves12) :
    (apply_move (apply_move cube m b1) (get_reverse_move m) b2).faces =
      cube.faces :=
  move_inverse_restores_faces cube m b1 b2 hm

/-- Witness for C1 at the front move on the solved construction. -/
theorem C1_witness :
    sF ∈ moves12 ∧
      (apply_move (apply_move initial_cube sF true) (get_reverse_move sF)
          true).faces = initial_cube.faces :=
  ⟨by decide, C1_move_then_inverse_restores initial_cube sF true true
    (by decide)⟩

/-! ### The solved state string and injectivity of serialization -/

/-- The canonical solved serialization: 9 of each color in the face order
UP, RIGHT, FRONT, DOWN, LEFT, BACK. -/
def solved_state_string : String :=
  String.mk (List.replicate 9 'W' ++ List.replicate 9 'R' ++
    List.replicate 9 'G' ++ List.replicate 9 'Y' ++
    List.replicate 9 'O' ++ List.replicate 9 'B')

lemma string_mk_inj (l1 l2 : List Char) :
    String.mk l1 = String.mk l2 ↔ l1 = l2 :=
  ⟨fun h => congrArg String.data h, fun h => congrArg String.mk h⟩

lemma is_solved_iff_state_string (cube : RubiksCube) :
    is_solved cube = true ↔ get_state_string cube = solved_state_string := by
  obtain ⟨⟨⟨f1, f2, f3, f4, f5, f6, f7, f8, f9⟩,
    ⟨k1, k2, k3, k4, k5, k6, k7, k8, k9⟩,
    ⟨l1, l2, l3, l4, l5, l6, l7, l8, l9⟩,
    ⟨r1, r2, r3, r4, r5, r6, r7, r8, r9⟩,
    ⟨u1, u2, u3, u4, u5, u6, u7, u8, u9⟩,
    ⟨d1, d2, d3, d4, d5, d6, d7, d8, d9⟩⟩, hist⟩ := cube
  rw [show solved_state_string = String.mk
    ['W','W','W','W','W','W','W','W','W','R','R','R','R','R','R','R','R','R',
     'G','G','G','G','G','G','G','G','G','Y','Y','Y','Y','Y','Y','Y','Y','Y',
     'O','O','O','O','O','O','O','O','O','B','B','B','B','B','B','B','B','B']
    from rfl]
  simp only [is_solved, gridAll, get_state_string, stateChars, gridChars,
    Bool.and_eq_true, decide_eq_true_eq, List.cons_append, List.nil_append,
    string_mk_inj, List.cons.injEq, and_true]
  constructor <;> intro h <;> simp_all

lemma state_string_inj (c1 c2 : RubiksCube)
    (h : get_state_string c1 = get_state_string c2) :
    c1.faces = c2.faces := by
  obtain ⟨⟨⟨f1, f2, f3, f4, f5, f6, f7, f8, f9⟩,
    ⟨k1, k2, k3, k4, k5, k6, k7, k8, k9⟩,
    ⟨l1, l2, l3, l4, l5, l6, l7, l8, l9⟩,
    ⟨r1, r2, r3, r4, r5, r6, r7, r8, r9⟩,
    ⟨u1, u2, u3, u4, u5, u6, u7, u8, u9⟩,
    ⟨d1, d2, d3, d4, d5, d6, d7, d8, d9⟩⟩, hist⟩ := c1
  obtain ⟨⟨⟨F1, F2, F3, F4, F5, F6, F7, F8, F9⟩,
    ⟨K1, K2, K3, K4, K5, K6, K7, K8, K9⟩,
    ⟨L1, L2, L3, L4, L5, L6, L7, L8, L9⟩,
    ⟨R1, R2, R3, R4, R5, R6, R7, R8, R9⟩,
    ⟨U1, U2, U3, U4, U5, U6, U7, U8, U9⟩,
    ⟨D1, D2, D3, D4, D5, D6, D7, D8, D9⟩⟩, HIST⟩ := c2
  simp only [get_state_string, stateChars, gridChars, List.cons_append,
    List.nil_append, string_mk_inj, List.cons.injEq, and_true] at h
  obtain ⟨e1, e2, e3, e4, e5, e6, e7, e8, e9, e10, e11, e12, e13, e14, e15,
    e16, e17, e18, e19, e20, e21, e22, e23, e24, e25, e26, e27, e28, e29,
    e30, e31, e32, e33, e34, e35, e36, e37, e38, e39, e40, e41, e42, e43,
    e44, e45, e46, e47, e48, e49, e50, e51, e52, e53, e54⟩ := h
  subst_vars
  rfl

/-- Determinism of solvedness and serialization on the face grids. -/
lemma faces_eq_state_string (c1 c2 : RubiksCube) (h : c1.faces = c2.faces) :
    get_state_string c1 = get_state_string c2 := by
  simp [get_state_string, h]

lemma faces_eq_is_solved (c1 c2 : RubiksCube) (h : c1.faces = c2.faces) :
    is_solved c1 = is_solved c2 := by
  simp [is_solved, h]

/-- A state whose serialization differs from the solved string is not
solved. -/
lemma not_solved_of_state_string_ne (cube : RubiksCube)
    (h : get_state_string cube ≠ solved_state_string) :
    is_solved cube = false := by
  rcases hb : is_solved cube with _ | _
  · rfl
  · exact absurd ((is_solved_iff_state_string cube).mp hb) h

/-! ### Claims C5, C6, C7, C10 -/

/-- **C5.** `get_perfect_solution` returns the empty path exactly on empty
history, and otherwise inverts the history in reverse chronological order;
concretely, from solved, applying F then R gives history `[F, R]`, the
perfect solution is R-prime then F-prime, and replaying it solves the
cube. -/
theorem C5_perfect_solution_reverses_history :
    (∀ cube : RubiksCube,
      get_perfect_solution cube =
        cube.move_history.reverse.map get_reverse_move) ∧
    ((apply_move (apply_move initial_cube sF true) sR true).move_history =
        [sF, sR] ∧
      get_perfect_solution
          (apply_move (apply_move initial_cube sF true) sR true) =
        [sRp, sFp] ∧
      is_solved (apply_moves_list
          (apply_move (apply_move initial_cube sF true) sR true)
          (get_perfect_solution
            (apply_move (apply_move initial_cube sF true) sR true))
          false) = true) := by
  refine ⟨fun cube => ?_, by decide, by decide, by decide⟩
  by_cases h : cube.move_history = []
  · simp [get_perfect_solution, h]
  · simp [get_perfect_solution, h]

/-- **C6.** `get_state_string` always has exactly 54 characters, is built by
visiting the faces in the fixed order UP, RIGHT, FRONT, DOWN, LEFT, BACK
(rows top to bottom, columns left to right), and is injective on grids: two
cubes with the same serialization have identical faces. -/
theorem C6_state_string_length_order_injective :
    (∀ cube : RubiksCube, (get_state_string cube).length = 54) ∧
    (∀ cube : RubiksCube,
      get_state_string cube =
        String.mk (gridChars cube.faces.up ++ gridChars cube.faces.right ++
          gridChars cube.faces.front ++ gridChars cube.faces.down ++
          gridChars cube.faces.left ++ gridChars cube.faces.back)) ∧
    (∀ c1 c2 : RubiksCube,
      get_state_string c1 = get_state_string c2 → c1.faces = c2.faces) := by
  refine ⟨fun cube => ?_, fun cube => rfl, state_string_inj⟩
  obtain ⟨⟨⟨f1, f2, f3, f4, f5, f6, f7, f8, f9⟩,
    ⟨k1, k2, k3, k4, k5, k6, k7, k8, k9⟩,
    ⟨l1, l2, l3, l4, l5, l6, l7, l8, l9⟩,
    ⟨r1, r2, r3, r4, r5, r6, r7, r8, r9⟩,
    ⟨u1, u2, u3, u4, u5, u6, u7, u8, u9⟩,
    ⟨d1, d2, d3, d4, d5, d6, d7, d8, d9⟩⟩, hist⟩ := cube
  rfl

/-- Witness for C6: length at the solved construction, and injectivity
applied to two equal serializations. -/
theorem C6_witness :
    (get_state_string initial_cube).length = 54 ∧
      initial_cube.faces = initial_cube.faces :=
  ⟨C6_state_string_length_order_injective.1 initial_cube,
    C6_state_string_length_order_injective.2.2 initial_cube initial_cube
      rfl⟩

lemma move_map_eq_none (m : String) (hm : m ∉ moves12) :
    move_map m = none := by
  simp only [moves12, List.mem_cons, List.not_mem_nil, or_false,
    not_or] at hm
  obtain ⟨h1, h2, h3, h4, h5, h6, h7, h8, h9, h10, h11, h12⟩ := hm
  simp [move_map, h1, h2, h3, h4, h5, h6, h7, h8, h9, h10, h11, h12]

lemma move_map_isSome_iff (m : String) :
    (move_map m).isSome = true ↔ m ∈ moves12 := by
  constructor
  · intro h
    by_contra hm
    rw [move_map_eq_none m hm] at h
    simp at h
  · intro hm
    simp only [moves12, List.mem_cons, List.not_mem_nil, or_false] at hm
    rcases hm with rfl | rfl | rfl | rfl | rfl | rfl | rfl | rfl | rfl |
      rfl | rfl | rfl <;> decide

/-- **C7.** A move string outside the 12 canonical tokens leaves the cube
completely unchanged, grid and history alike, for either value of the
history-tracking flag. -/
theorem C7_invalid_token_is_no_op (cube : RubiksCube) (m : String)
    (b : Bool) (hm : m ∉ moves12) :
    apply_move cube m b = cube := by
  simp [apply_move, move_map_eq_none m hm]

/-- Witness for C7 at the token X. -/
theorem C7_witness :
    "X" ∉ moves12 ∧ apply_move initial_cube "X" true = initial_cube :=
  ⟨by decide, C7_invalid_token_is_no_op initial_cube "X" true (by decide)⟩

/-- **C10.** `is_solved` holds exactly when the serialization equals the
canonical solved string: 9 W, then 9 R, 9 G, 9 Y, 9 O, 9 B, in the face
order UP, RIGHT, FRONT, DOWN, LEFT, BACK. -/
theorem C10_solved_iff_canonical_string (cube : RubiksCube) :
    is_solved cube = true ↔ get_state_string cube = solved_state_string :=
  is_solved_iff_state_string cube

/-! ### Claim C3: the color multiset is preserved -/

/-- Number of facelets carrying color `c`. -/
def countc (c : Char) : List Char → Nat
  | [] => 0
  | x :: xs => (if x = c then 1 else 0) + countc c xs

def sixColors : List Char := ['W', 'Y', 'R', 'O', 'G', 'B']

lemma move_map_sF : move_map sF = some (rotate_front, true) := rfl

lemma move_map_sFp : move_map sFp = some (rotate_front, false) := rfl

lemma move_map_sR : move_map sR = some (rotate_right, true) := rfl

lemma move_map_sRp : move_map sRp = some (rotate_right, false) := rfl

lemma move_map_sU : move_map sU = some (rotate_up, true) := rfl

lemma move_map_sUp : move_map sUp = some (rotate_up, false) := rfl

lemma move_map_sL : move_map sL = some (rotate_left, true) := rfl

lemma move_map_sLp : move_map sLp = some (rotate_left, false) := rfl

lemma move_map_sD : move_map sD = some (rotate_down, true) := rfl

lemma move_map_sDp : move_map sDp = some (rotate_down, false) := rfl

lemma move_map_sB : move_map sB = some (rotate_back, true) := rfl

lemma move_map_sBp : move_map sBp = some (rotate_back, false) := rfl

lemma moveFaces_countc (fs : Faces) (m : String) (hm : m ∈ moves12)
    (col : Char) :
    countc col (stateChars (moveFaces m fs)) =
      countc col (stateChars fs) := by
  obtain ⟨⟨f1, f2, f3, f4, f5, f6, f7, f8, f9⟩,
    ⟨k1, k2, k3, k4, k5, k6, k7, k8, k9⟩,
    ⟨l1, l2, l3, l4, l5, l6, l7, l8, l9⟩,
    ⟨r1, r2, r3, r4, r5, r6, r7, r8, r9⟩,
    ⟨u1, u2, u3, u4, u5, u6, u7, u8, u9⟩,
    ⟨d1, d2, d3, d4, d5, d6, d7, d8, d9⟩⟩ := fs
  simp only [moves12, List.mem_cons, List.not_mem_nil, or_false] at hm
  rcases hm with rfl | rfl | rfl | rfl | rfl | rfl | rfl | rfl | rfl |
    rfl | rfl | rfl
  all_goals
    simp [moveFaces, move_map_sF, move_map_sFp, move_map_sR,
      move_map_sRp, move_map_sU, move_map_sUp, move_map_sL, move_map_sLp,
      move_map_sD, move_map_sDp, move_map_sB, move_map_sBp,
      rotate_front, rotate_right, rotate_up,
      rotate_left, rotate_down, rotate_back, rotate_face_clockwise,
      rotate_face_counterclockwise, get_row, get_col, set_row, set_col,
      stateChars, gridChars, countc]
  all_goals omega

lemma apply_moves_list_countc (ms : List String) :
    ∀ (cube : RubiksCube) (b : Bool) (col : Char),
      (∀ m ∈ ms, m ∈ moves12) →
      countc col (stateChars (apply_moves_list cube ms b).faces) =
        countc col (stateChars cube.faces) := by
  induction ms with
  | nil => intros; rfl
  | cons m rest ih =>
    intro cube b col h
    rw [apply_moves_list_cons,
      ih _ b col (fun x hx => h x (List.mem_cons_of_mem m hx)),
      apply_move_faces]
    exact moveFaces_countc cube.faces m (h m (List.mem_cons_self m rest))
      col

/-- **C3.** Every canonical move preserves the color count of every color,
so every state reachable from the solved construction by canonical moves
has exactly 9 facelets of each of the 6 colors. -/
theorem C3_color_multiset_invariant :
    (∀ (fs : Faces) (m : String) (col : Char), m ∈ moves12 →
      countc col (stateChars (moveFaces m fs)) =
        countc col (stateChars fs)) ∧
    (∀ (ms : List String) (b : Bool), (∀ m ∈ ms, m ∈ moves12) →
      ∀ col ∈ sixColors,
        countc col
            (stateChars (apply_moves_list initial_cube ms b).faces) =
          9) := by
  refine ⟨fun fs m col hm => moveFaces_countc fs m hm col,
    fun ms b h col hcol => ?_⟩
  rw [apply_moves_list_countc ms initial_cube b col h]
  fin_cases hcol <;> decide

/-- Witness for C3: one tracked front turn keeps 9 white facelets. -/
theorem C3_witness :
    countc 'W' (stateChars (apply_moves_list initial_cube [sF] true).faces)
      = 9 :=
  C3_color_multiset_invariant.2 [sF] true (by decide) 'W' (by decide)

/-! ### Claim C8: the external-solver adapter -/

/-- Python `str.split()` with no argument: whitespace-separated words,
empty pieces discarded.  `acc` collects the current word reversed. -/
def wordsGo : List Char → List Char → List String
  | [], acc => if acc = [] then [] else [String.mk acc.reverse]
  | c :: cs, acc =>
    if c.isWhitespace then
      if acc = [] then wordsGo cs []
      else String.mk acc.reverse :: wordsGo cs []
    else wordsGo cs (c :: acc)

def pyWords (s : String) : List String := wordsGo s.data []

/-- The token-validation loop of `solve_kociemba`: every token must be a
`move_map` key, otherwise the whole response is rejected. -/
def validate_moves : List String → Option (List String)
  | [] => some []
  | m :: rest =>
    if (move_map m).isSome then
      match validate_moves rest with
      | some vs => some (m :: vs)
      | none => none
    else none

/-- `CubeSolver.solve_kociemba`.  The external call
`kociemba.solve(cube_string)` is an oracle supplied as `resp`:
`Except.error` stands for a raised exception (caught by the handler around
the whole body), `Except.ok s` for a returned string.  The body mirrors the
source: unavailable library or a malformed cube string give `none`; an
empty response means already solved; a whitespace-only response or any
unrecognized token gives `none`. -/
def solve_kociemba (avail : Bool) (resp : Except Unit String)
    (cube : RubiksCube) : Option (List String) :=
  if !avail then none
  else
    let cube_string := get_kociemba_string cube
    if cube_string.length ≠ 54 then none
    else
      match resp with
      | Except.error _ => none
      | Except.ok solution_string =>
        if solution_string = "" then some []
        else if pyWords solution_string ≠ [] then
          validate_moves (pyWords solution_string)
        else none

lemma validate_moves_sound (ts vs : List String)
    (h : validate_moves ts = some vs) :
    vs = ts ∧ ∀ t ∈ ts, t ∈ moves12 := by
  induction ts generalizing vs with
  | nil =>
    simp only [validate_moves, Option.some.injEq] at h
    simp [← h]
  | cons m rest ih =>
    simp only [validate_moves] at h
    by_cases hm : (move_map m).isSome
    · rw [if_pos hm] at h
      rcases hrec : validate_moves rest with _ | vrest
      · rw [hrec] at h; exact absurd h (by simp)
      · rw [hrec] at h
        simp only [Option.some.injEq] at h
        obtain ⟨hv, hall⟩ := ih vrest hrec
        subst hv
        refine ⟨h.symm, fun t ht => ?_⟩
        rcases List.mem_cons.mp ht with rfl | ht2
        · exact (move_map_isSome_iff t).mp hm
        · exact hall t ht2
    · rw [if_neg hm] at h
      exact absurd h (by simp)

lemma validate_moves_rejects (ts : List String) (t : String)
    (ht : t ∈ ts) (hbad : t ∉ moves12) :
    validate_moves ts = none := by
  induction ts with
  | nil => exact absurd ht (List.not_mem_nil t)
  | cons m rest ih =>
    simp only [validate_moves]
    rcases List.mem_cons.mp ht with rfl | ht2
    · rw [if_neg]
      intro hs
      exact hbad ((move_map_isSome_iff t).mp hs)
    · by_cases hm : (move_map m).isSome
      · rw [if_pos hm, ih ht2]
      · rw [if_neg hm]

/-- **C8.** A raised exception in the external call makes `solve_kociemba`
return no solution; any returned sequence contains only canonical tokens;
and a response containing any unrecognized token is rejected outright,
never truncated to a valid prefix. -/
theorem C8_kociemba_rejects_bad_responses :
    (∀ (avail : Bool) (cube : RubiksCube) (e : Unit),
      solve_kociemba avail (Except.error e) cube = none) ∧
    (∀ (avail : Bool) (s : String) (cube : RubiksCube) (ts : List String),
      solve_kociemba avail (Except.ok s) cube = some ts →
        ∀ t ∈ ts, t ∈ moves12) ∧
    (∀ (avail : Bool) (s : String) (cube : RubiksCube),
      (∃ t ∈ pyWords s, t ∉ moves12) →
        solve_kociemba avail (Except.ok s) cube = none) := by
  refine ⟨fun avail cube e => ?_, fun avail s cube ts h => ?_,
    fun avail s cube hbad => ?_⟩
  · rcases avail with _ | _ <;> simp [solve_kociemba]
  · rcases avail with _ | _
    · simp [solve_kociemba] at h
    · simp only [solve_kociemba, Bool.not_true, Bool.false_eq_true,
        if_false] at h
      split at h
      · exact absurd h (by simp)
      · split at h
        · simp only [Option.some.injEq] at h
          simp [← h]
        · split at h
          · obtain ⟨hv, hall⟩ := validate_moves_sound _ ts h
            subst hv
            exact hall
          · exact absurd h (by simp)
  · obtain ⟨t, ht, hbadt⟩ := hbad
    rcases avail with _ | _
    · simp [solve_kociemba]
    · have hs : s ≠ "" := by
        intro hempty
        subst hempty
        exact absurd ht (by simp [pyWords, wordsGo])
      have hw : pyWords s ≠ [] := by
        intro hnil
        rw [hnil] at ht
        exact (List.not_mem_nil t) ht
      simp only [solve_kociemba, Bool.not_true, Bool.false_eq_true,
        if_false, if_neg hs, if_pos hw]
      split
      · rfl
      · exact validate_moves_rejects (pyWords s) t ht hbadt

/-- Witness for C8: the single-token response Q is rejected. -/
theorem C8_witness :
    solve_kociemba true (Except.ok "Q") initial_cube = none :=
  C8_kociemba_rejects_bad_responses.2.2 true "Q" initial_cube
    ⟨"Q", by decide, by decide⟩

/-! ### The breadth-first search solver -/

/-- The `max_nodes = 100000` node budget of `solve_bfs`. -/
def max_nodes : Nat := 100000

/-- The inner `for move in self.moves` loop of `solve_bfs`: each child is a
copy of the current node moved once without history tracking; a solved
child returns the extended path immediately (`Except.error`), otherwise an
unvisited child is recorded and enqueued at the back. -/
def expandChildren (cur : RubiksCube) (path : List String)
    (mvs : List String) (queue : List (RubiksCube × List String))
    (visited : List String) :
    Except (List String) (List (RubiksCube × List String) × List String) :=
  match mvs with
  | [] => Except.ok (queue, visited)
  | m :: rest =>
    let new_cube := apply_move (copy cur) m false
    if is_solved new_cube then Except.error (path ++ [m])
    else
      let st := get_state_string new_cube
      if st ∈ visited then expandChildren cur path rest queue visited
      else
        expandChildren cur path rest (queue ++ [(new_cube, path ++ [m])])
          (visited ++ [st])

/-- The `while queue` loop of `solve_bfs`.  The source counts
`nodes_explored` upward and breaks once it exceeds `max_nodes`; here the
same budget is the countdown `fuel`, started at `max_nodes + 1`, so the
loop pops exactly as many nodes before giving up.  A node already at the
depth limit is popped but not expanded (`continue`). -/
def bfsLoop (max_depth : Nat) :
    Nat → List (RubiksCube × List String) → List String →
      Option (List String)
  | _, [], _ => none
  | 0, _ :: _, _ => none
  | fuel + 1, (cur, path) :: rest, visited =>
    if path.length ≥ max_depth then bfsLoop max_depth fuel rest visited
    else
      match expandChildren cur path moves12 rest visited with
      | Except.error sol => some sol
      | Except.ok (q2, v2) => bfsLoop max_depth fuel q2 v2

/-- `CubeSolver.solve_bfs` (the wall-clock limit is taken as never
expiring, which is the hypothesis of every claim about the search):
a solved input returns the empty solution, otherwise the queue is seeded
with a copy of the cube and the visited set with its serialization. -/
def solve_bfs (cube : RubiksCube) (max_depth : Nat) :
    Option (List String) :=
  if is_solved cube then some []
  else
    bfsLoop max_depth (max_nodes + 1) [(copy cube, [])]
      [get_state_string cube]

/-- The `for max_depth in range(1, max_search_depth + 1)` loop of
`solve_cube`: first non-empty BFS result wins, otherwise the empty
failure path. -/
def bfs_first (cube : RubiksCube) : List Nat → List String
  | [] => []
  | d :: rest =>
    match solve_bfs cube d with
    | some sol => if sol ≠ [] then sol else bfs_first cube rest
    | none => bfs_first cube rest

/-- `CubeSolver.solve_cube`, with the state of the `cube` argument
threaded through and returned: each strategy works only on copies, so
every return site pairs the solution with the untouched input state.
`avail` is `KOCIEMBA_AVAILABLE`; `resp` is the external-solver oracle. -/
def solve_cube (avail : Bool) (resp : Except Unit String)
    (cube : RubiksCube) : List String × RubiksCube :=
  if is_solved cube then ([], cube)
  else
    let perfectResult : Option (List String) :=
      if cube.move_history ≠ [] then
        let perfect_solution := get_perfect_solution cube
        let test_cube := copy cube
        let test_cube := apply_moves_list test_cube perfect_solution false
        if is_solved test_cube then some perfect_solution else none
      else none
    match perfectResult with
    | some sol => (sol, cube)
    | none =>
      let kociembaResult : Option (List String) :=
        if avail then
          match solve_kociemba avail resp cube with
          | some ks =>
            if ks ≠ [] then
              let test_cube := copy cube
              let test_cube := apply_moves_list test_cube ks false
              if is_solved test_cube then some ks else none
            else none
          | none => none
        else none
      match kociembaResult with
      | some sol => (sol, cube)
      | none =>
        let max_search_depth :=
          if cube.move_history ≠ [] then
            min 12 (cube.move_history.length + 6)
          else 8
        (bfs_first cube ((List.range max_search_depth).map (· + 1)), cube)


/-! ### Reachability helpers for the search proofs -/

/-- The state after replaying a move list without history tracking. -/
def reachNT (c : RubiksCube) (w : List String) : RubiksCube :=
  apply_moves_list c w false

lemma reachNT_nil (c : RubiksCube) : reachNT c [] = c := rfl

lemma reachNT_append_one (c : RubiksCube) (w : List String) (m : String) :
    reachNT c (w ++ [m]) = apply_move (reachNT c w) m false :=
  apply_moves_list_append c w m false

lemma get_reverse_move_mem (m : String) (hm : m ∈ moves12) :
    get_reverse_move m ∈ moves12 := by
  simp only [moves12, List.mem_cons, List.not_mem_nil, or_false] at hm
  rcases hm with rfl | rfl | rfl | rfl | rfl | rfl | rfl | rfl | rfl |
    rfl | rfl | rfl <;> decide

lemma one_move_unsolved :
    ∀ m ∈ moves12, is_solved (apply_move initial_cube m true) = false := by
  decide

/-- Two states with equal serializations have equal children: the moved
state serializes identically and is solved identically. -/
lemma state_string_child_transfer (a b : RubiksCube)
    (h : get_state_string a = get_state_string b) (m : String) :
    get_state_string (apply_move a m false) =
        get_state_string (apply_move b m false) ∧
      is_solved (apply_move a m false) = is_solved (apply_move b m false) := by
  have hf := state_string_inj a b h
  constructor
  · exact faces_eq_state_string _ _
      (by rw [apply_move_faces, apply_move_faces, hf])
  · exact faces_eq_is_solved _ _
      (by rw [apply_move_faces, apply_move_faces, hf])

/-! ### Specification of one expansion step -/

lemma expandChildren_error_spec (cur : RubiksCube) (path : List String) :
    ∀ (mvs : List String) (Q : List (RubiksCube × List String))
      (V : List String) (sol : List String),
      expandChildren cur path mvs Q V = Except.error sol →
      ∃ m ∈ mvs, sol = path ++ [m] ∧
        is_solved (apply_move (copy cur) m false) = true := by
  intro mvs
  induction mvs with
  | nil => intro Q V sol h; simp [expandChildren] at h
  | cons m rest ih =>
    intro Q V sol h
    simp only [expandChildren] at h
    by_cases hsol : is_solved (apply_move (copy cur) m false) = true
    · rw [if_pos hsol] at h
      simp only [Except.error.injEq] at h
      exact ⟨m, List.mem_cons_self m rest, h.symm, hsol⟩
    · rw [if_neg hsol] at h
      by_cases hmem :
          get_state_string (apply_move (copy cur) m false) ∈ V
      · rw [if_pos hmem] at h
        obtain ⟨m2, hm2, hsol2, hs2⟩ := ih Q V sol h
        exact ⟨m2, List.mem_cons_of_mem m hm2, hsol2, hs2⟩
      · rw [if_neg hmem] at h
        obtain ⟨m2, hm2, hsol2, hs2⟩ := ih _ _ sol h
        exact ⟨m2, List.mem_cons_of_mem m hm2, hsol2, hs2⟩

/-- Everything the invariants need about a completed (no solved child)
expansion of the node `(cur, path)`. -/
structure ExpandOk (cur : RubiksCube) (path : List String)
    (mvs : List String) (Q : List (RubiksCube × List String))
    (V : List String) (Q2 : List (RubiksCube × List String))
    (V2 : List String) : Prop where
  qext : ∃ T, Q2 = Q ++ T ∧
    ∀ e ∈ T, ∃ m ∈ mvs, e = (apply_move (copy cur) m false, path ++ [m])
  vsub : ∀ v ∈ V, v ∈ V2
  children : ∀ m ∈ mvs, is_solved (apply_move (copy cur) m false) = false ∧
    get_state_string (apply_move (copy cur) m false) ∈ V2
  newPending : ∀ v ∈ V2, v ∈ V ∨ ∃ e ∈ Q2,
    get_state_string e.1 = v ∧ e.2.length = path.length + 1 ∧
    is_solved e.1 = false
  newReach : ∀ v ∈ V2, v ∈ V ∨ ∃ m ∈ mvs,
    v = get_state_string (apply_move (copy cur) m false)
  vNodupStep : V.Nodup → V2.Nodup
  sizes : Q2.length + V.length = Q.length + V2.length

lemma expandChildren_ok_spec (cur : RubiksCube) (path : List String) :
    ∀ (mvs : List String) (Q Q2 : List (RubiksCube × List String))
      (V V2 : List String),
      expandChildren cur path mvs Q V = Except.ok (Q2, V2) →
      ExpandOk cur path mvs Q V Q2 V2 := by
  intro mvs
  induction mvs with
  | nil =>
    intro Q Q2 V V2 h
    simp only [expandChildren, Except.ok.injEq, Prod.mk.injEq] at h
    obtain ⟨hq, hv⟩ := h
    subst hq
    subst hv
    exact { qext := ⟨[], by simp, by simp⟩
            vsub := fun v hv => hv
            children := by simp
            newPending := fun v hv => Or.inl hv
            newReach := fun v hv => Or.inl hv
            vNodupStep := fun h => h
            sizes := rfl }
  | cons m rest ih =>
    intro Q Q2 V V2 h
    simp only [expandChildren] at h
    by_cases hsol : is_solved (apply_move (copy cur) m false) = true
    · rw [if_pos hsol] at h
      exact absurd h (by simp)
    · rw [if_neg hsol] at h
      have hsolF : is_solved (apply_move (copy cur) m false) = false := by
        rcases hb : is_solved (apply_move (copy cur) m false) with _ | _
        · rfl
        · exact absurd hb hsol
      by_cases hmem :
          get_state_string (apply_move (copy cur) m false) ∈ V
      · rw [if_pos hmem] at h
        have o := ih Q Q2 V V2 h
        refine { qext := ?_, vsub := o.vsub, children := ?_,
                 newPending := o.newPending, newReach := ?_,
                 vNodupStep := o.vNodupStep, sizes := o.sizes }
        · obtain ⟨T, hT1, hT2⟩ := o.qext
          exact ⟨T, hT1, fun e he =>
            (hT2 e he).imp fun m2 hm2 =>
              ⟨List.mem_cons_of_mem m hm2.1, hm2.2⟩⟩
        · intro m2 hm2
          rcases List.mem_cons.mp hm2 with rfl | h2
          · exact ⟨hsolF, o.vsub _ hmem⟩
          · exact o.children m2 h2
        · intro v hv
          rcases o.newReach v hv with h1 | ⟨m2, hm2, h2⟩
          · exact Or.inl h1
          · exact Or.inr ⟨m2, List.mem_cons_of_mem m hm2, h2⟩
      · rw [if_neg hmem] at h
        have o := ih
          (Q ++ [(apply_move (copy cur) m false, path ++ [m])]) Q2
          (V ++ [get_state_string (apply_move (copy cur) m false)]) V2 h
        have hstmem :
            get_state_string (apply_move (copy cur) m false) ∈
              V ++ [get_state_string (apply_move (copy cur) m false)] := by
          simp
        refine { qext := ?_, vsub := ?_, children := ?_, newPending := ?_,
                 newReach := ?_, vNodupStep := ?_, sizes := ?_ }
        · obtain ⟨T, hT1, hT2⟩ := o.qext
          refine ⟨(apply_move (copy cur) m false, path ++ [m]) :: T, ?_, ?_⟩
          · rw [hT1, List.append_assoc]
            rfl
          · intro e he
            rcases List.mem_cons.mp he with rfl | h2
            · exact ⟨m, List.mem_cons_self m rest, rfl⟩
            · exact (hT2 e h2).imp fun m2 hm2 =>
                ⟨List.mem_cons_of_mem m hm2.1, hm2.2⟩
        · exact fun v hv => o.vsub v (List.mem_append_left _ hv)
        · intro m2 hm2
          rcases List.mem_cons.mp hm2 with rfl | h2
          · exact ⟨hsolF, o.vsub _ hstmem⟩
          · exact o.children m2 h2
        · intro v hv
          rcases o.newPending v hv with h1 | ⟨e, he, h2⟩
          · rcases List.mem_append.mp h1 with h3 | h3
            · exact Or.inl h3
            · refine Or.inr ?_
              obtain ⟨T, hT1, hT2⟩ := o.qext
              have hmemQ2 :
                  (apply_move (copy cur) m false, path ++ [m]) ∈ Q2 := by
                rw [hT1]
                exact List.mem_append_left _ (List.mem_append_right _
                  (List.mem_singleton_self _))
              have hv2 : v =
                  get_state_string (apply_move (copy cur) m false) := by
                simpa using h3
              exact ⟨(apply_move (copy cur) m false, path ++ [m]), hmemQ2,
                by simp [hv2], by simp, hsolF⟩
          · exact Or.inr ⟨e, he, h2⟩
        · intro v hv
          rcases o.newReach v hv with h1 | ⟨m2, hm2, h2⟩
          · rcases List.mem_append.mp h1 with h3 | h3
            · exact Or.inl h3
            · exact Or.inr ⟨m, List.mem_cons_self m rest, by simpa using h3⟩
          · exact Or.inr ⟨m2, List.mem_cons_of_mem m hm2, h2⟩
        · intro hN
          refine o.vNodupStep ?_
          rw [List.nodup_append]
          refine ⟨hN, List.nodup_singleton _, fun a ha hb => ?_⟩
          rw [List.mem_singleton] at hb
          subst hb
          exact hmem ha
        · have := o.sizes
          simp only [List.length_append, List.length_cons,
            List.length_nil] at this ⊢
          omega

/-! ### The breadth-first-search invariant -/

lemma pairwise_of_forall_mem {α : Type} (l : List α) (R : α → α → Prop)
    (h : ∀ a ∈ l, ∀ b ∈ l, R a b) : l.Pairwise R := by
  induction l with
  | nil => exact List.Pairwise.nil
  | cons x xs ih =>
    exact List.Pairwise.cons (fun b hb => h x (by simp) b (by simp [hb]))
      (ih fun a ha b hb => h a (by simp [ha]) b (by simp [hb]))

/-- Loop invariant of `bfsLoop`, relating the queue `Q` and visited set `V`
to the start state `c`.  `pend` says a generated state is still pending in
the queue (with a path no longer than any way of writing it), or has had
all 12 children generated, or sits at the depth cap.  `covered` says every
state within the head depth (capped by `max_depth`) has been generated. -/
structure BfsInv (c : RubiksCube) (maxd : Nat)
    (Q : List (RubiksCube × List String)) (V : List String) : Prop where
  entries : ∀ e ∈ Q, e.1 = reachNT c e.2 ∧ (∀ m ∈ e.2, m ∈ moves12) ∧
    is_solved e.1 = false ∧ get_state_string e.1 ∈ V ∧ e.2.length ≤ maxd
  vUnsolved : ∀ v ∈ V, v ≠ solved_state_string
  lenSorted : List.Pairwise (fun a b : RubiksCube × List String =>
    a.2.length ≤ b.2.length) Q
  lenBounded : ∀ e0, Q.head? = some e0 → ∀ e ∈ Q,
    e.2.length ≤ e0.2.length + 1
  covered : ∀ e0, Q.head? = some e0 → ∀ w, (∀ m ∈ w, m ∈ moves12) →
    w.length ≤ min e0.2.length maxd →
    get_state_string (reachNT c w) ∈ V
  pend : ∀ w, (∀ m ∈ w, m ∈ moves12) →
    get_state_string (reachNT c w) ∈ V →
    (∃ e ∈ Q, get_state_string e.1 = get_state_string (reachNT c w) ∧
      e.2.length ≤ w.length) ∨
    (∀ m ∈ moves12, get_state_string (reachNT c (w ++ [m])) ∈ V) ∨
    maxd ≤ w.length
  rootMem : get_state_string c ∈ V
  vNodup : V.Nodup
  vReach : ∀ v ∈ V, ∃ w, (∀ m ∈ w, m ∈ moves12) ∧ w.length ≤ maxd ∧
    v = get_state_string (reachNT c w)

lemma BfsInv_init (c : RubiksCube) (maxd : Nat)
    (hc : is_solved c = false) :
    BfsInv c maxd [(copy c, [])] [get_state_string c] := by
  have hcopy : copy c = c := copy_eq c
  refine { entries := ?_, vUnsolved := ?_, lenSorted := ?_,
           lenBounded := ?_, covered := ?_, pend := ?_, rootMem := ?_,
           vNodup := ?_, vReach := ?_ }
  · intro e he
    rw [List.mem_singleton] at he
    subst he
    exact ⟨hcopy.trans (reachNT_nil c).symm, by simp,
      by rw [hcopy]; exact hc,
      by rw [hcopy]; exact List.mem_singleton_self _, by simp⟩
  · intro v hv
    rw [List.mem_singleton] at hv
    subst hv
    intro hEq
    have := (is_solved_iff_state_string c).mpr hEq
    rw [hc] at this
    exact absurd this (by simp)
  · exact List.pairwise_singleton _ _
  · intro e0 h0 e he
    rw [List.mem_singleton] at he
    subst he
    simp
  · intro e0 h0 w hw hlen
    simp only [List.head?_cons, Option.some.injEq] at h0
    subst h0
    have hw0 : w.length = 0 := by
      simp only [List.length_nil] at hlen
      omega
    have : w = [] := List.eq_nil_of_length_eq_zero hw0
    subst this
    rw [reachNT_nil]
    exact List.mem_singleton_self _
  · intro w hw hmem
    left
    rw [List.mem_singleton] at hmem
    refine ⟨(copy c, []), List.mem_singleton_self _, ?_, by simp⟩
    rw [hcopy, ← hmem]
  · exact List.mem_singleton_self _
  · exact List.nodup_singleton _
  · intro v hv
    rw [List.mem_singleton] at hv
    exact ⟨[], by simp, by simp, by rw [hv, reachNT_nil]⟩

lemma BfsInv_skip (c : RubiksCube) (maxd : Nat)
    (e : RubiksCube × List String)
    (rest : List (RubiksCube × List String)) (V : List String)
    (inv : BfsInv c maxd (e :: rest) V) (hskip : maxd ≤ e.2.length) :
    BfsInv c maxd rest V := by
  have hsort := inv.lenSorted
  rw [List.pairwise_cons] at hsort
  obtain ⟨hheadle, htail⟩ := hsort
  refine { entries := fun x hx => inv.entries x (List.mem_cons_of_mem e hx),
           vUnsolved := inv.vUnsolved, lenSorted := htail,
           lenBounded := ?_, covered := ?_, pend := ?_,
           rootMem := inv.rootMem, vNodup := inv.vNodup,
           vReach := inv.vReach }
  · intro e0 h0 x hx
    have h1 := inv.lenBounded e rfl x (List.mem_cons_of_mem e hx)
    have h2 : e.2.length ≤ e0.2.length :=
      hheadle e0 (List.mem_of_mem_head? h0)
    omega
  · intro e0 h0 w hw hlen
    apply inv.covered e rfl w hw
    have h2 := Nat.min_le_right e0.2.length maxd
    omega
  · intro w hw hmem
    rcases inv.pend w hw hmem with ⟨x, hx, h1, h2⟩ | h | h
    · rcases List.mem_cons.mp hx with rfl | hx2
      · right; right; omega
      · left; exact ⟨x, hx2, h1, h2⟩
    · right; left; exact h
    · right; right; exact h

lemma BfsInv_step (c : RubiksCube) (maxd : Nat) (cur : RubiksCube)
    (path : List String) (rest Q2 : List (RubiksCube × List String))
    (V V2 : List String)
    (inv : BfsInv c maxd ((cur, path) :: rest) V)
    (hlt : path.length < maxd)
    (hup : expandChildren cur path moves12 rest V = Except.ok (Q2, V2)) :
    BfsInv c maxd Q2 V2 := by
  have o := expandChildren_ok_spec cur path moves12 rest Q2 V V2 hup
  obtain ⟨T, hQ2, hT⟩ := o.qext
  have hent := inv.entries (cur, path) (List.mem_cons_self _ _)
  have hcur : cur = reachNT c path := hent.1
  have hcanon : ∀ m ∈ path, m ∈ moves12 := hent.2.1
  have hunsolved : is_solved cur = false := hent.2.2.1
  have hlen : path.length ≤ maxd := hent.2.2.2.2
  have hsortQ := inv.lenSorted
  rw [List.pairwise_cons] at hsortQ
  have hheadle : ∀ a ∈ rest, path.length ≤ a.2.length := hsortQ.1
  have hsortRest := hsortQ.2
  have hchild : ∀ m ∈ moves12,
      is_solved (reachNT c (path ++ [m])) = false ∧
      get_state_string (reachNT c (path ++ [m])) ∈ V2 := by
    intro m hm
    have h2 := o.children m hm
    rwa [copy_eq, hcur, ← reachNT_append_one] at h2
  have hcurchild : ∀ m : String,
      apply_move cur m false = reachNT c (path ++ [m]) := by
    intro m
    rw [hcur, ← reachNT_append_one]
  have hTmem : ∀ e ∈ T, ∃ m ∈ moves12,
      e = (reachNT c (path ++ [m]), path ++ [m]) := by
    intro e he
    obtain ⟨m, hm, he2⟩ := hT e he
    refine ⟨m, hm, ?_⟩
    rw [he2, copy_eq, hcurchild]
  have hQ2bound : ∀ e ∈ Q2, e.2.length ≤ path.length + 1 := by
    intro e he
    rw [hQ2] at he
    rcases List.mem_append.mp he with h1 | h1
    · exact inv.lenBounded (cur, path) rfl e (List.mem_cons_of_mem _ h1)
    · obtain ⟨m, hm, rfl⟩ := hTmem e h1
      simp
  have hQ2lower : ∀ e ∈ Q2, path.length ≤ e.2.length := by
    intro e he
    rw [hQ2] at he
    rcases List.mem_append.mp he with h1 | h1
    · exact hheadle e h1
    · obtain ⟨m, hm, rfl⟩ := hTmem e h1
      simp
  have hminpath : min path.length maxd = path.length :=
    Nat.min_eq_left (le_of_lt hlt)
  refine { entries := ?_, vUnsolved := ?_, lenSorted := ?_,
           lenBounded := ?_, covered := ?_, pend := ?_,
           rootMem := o.vsub _ inv.rootMem,
           vNodup := o.vNodupStep inv.vNodup, vReach := ?_ }
  · intro e he
    rw [hQ2] at he
    rcases List.mem_append.mp he with h1 | h1
    · obtain ⟨a1, a2, a3, a4, a5⟩ :=
        inv.entries e (List.mem_cons_of_mem _ h1)
      exact ⟨a1, a2, a3, o.vsub _ a4, a5⟩
    · obtain ⟨m, hm, rfl⟩ := hTmem e h1
      refine ⟨rfl, ?_, (hchild m hm).1, (hchild m hm).2, ?_⟩
      · intro x hx
        rcases List.mem_append.mp hx with h2 | h2
        · exact hcanon x h2
        · rw [List.mem_singleton] at h2
          subst h2
          exact hm
      · simp only [List.length_append, List.length_singleton]
        omega
  · intro v hv
    rcases o.newPending v hv with h1 | ⟨e, _, h1, _, h3⟩
    · exact inv.vUnsolved v h1
    · intro hEq
      have h4 : is_solved e.1 = true :=
        (is_solved_iff_state_string e.1).mpr (h1.trans hEq)
      rw [h3] at h4
      exact absurd h4 (by simp)
  · rw [hQ2, List.pairwise_append]
    refine ⟨hsortRest, ?_, ?_⟩
    · refine pairwise_of_forall_mem T _ fun a ha b hb => ?_
      obtain ⟨m1, _, rfl⟩ := hTmem a ha
      obtain ⟨m2, _, rfl⟩ := hTmem b hb
      simp
    · intro a ha b hb
      obtain ⟨m, hm, rfl⟩ := hTmem b hb
      have := inv.lenBounded (cur, path) rfl a (List.mem_cons_of_mem _ ha)
      simpa using this
  · intro e0 h0 e he
    have h1 := hQ2bound e he
    have h2 := hQ2lower e0 (List.mem_of_mem_head? h0)
    omega
  · intro e0 h0 w hw hwlen
    by_cases hshort : w.length ≤ path.length
    · exact o.vsub _ (inv.covered (cur, path) rfl w hw
        (by rw [hminpath]; exact hshort))
    · push_neg at hshort
      have hwle : w.length ≤ path.length + 1 := by
        have h2 := hQ2bound e0 (List.mem_of_mem_head? h0)
        have h3 := le_trans hwlen (Nat.min_le_left _ _)
        omega
      have hweq : w.length = path.length + 1 := by omega
      rcases List.eq_nil_or_concat w with rfl | ⟨w2, m2, hcc⟩
      · exact absurd hweq (by simp)
      · rw [List.concat_eq_append] at hcc
        subst hcc
        have hw2len : w2.length = path.length := by
          simp only [List.length_append, List.length_singleton] at hweq
          omega
        have hw2canon : ∀ x ∈ w2, x ∈ moves12 :=
          fun x hx => hw x (List.mem_append_left _ hx)
        have hm2 : m2 ∈ moves12 :=
          hw m2 (List.mem_append_right _ (List.mem_singleton_self _))
        have hw2str : get_state_string (reachNT c w2) ∈ V :=
          inv.covered (cur, path) rfl w2 hw2canon
            (by rw [hminpath]; omega)
        rcases inv.pend w2 hw2canon hw2str with
          ⟨e, he, he1, he2⟩ | hexp | hbig
        · rcases List.mem_cons.mp he with rfl | he3
          · have ht := state_string_child_transfer cur (reachNT c w2) he1 m2
            rw [reachNT_append_one, ← ht.1, hcurchild]
            exact (hchild m2 hm2).2
          · exfalso
            have he2b : e.2.length ≤ path.length := by
              rw [← hw2len]
              exact he2
            have hge : path.length ≤ e.2.length := hheadle e he3
            cases rest with
            | nil => exact absurd he3 (List.not_mem_nil e)
            | cons r0 rest2 =>
              have h00 : e0 = r0 := by
                rw [hQ2] at h0
                simp only [List.cons_append, List.head?_cons,
                  Option.some.injEq] at h0
                exact h0.symm
              have hr0e : r0.2.length ≤ e.2.length := by
                rcases List.mem_cons.mp he3 with rfl | he4
                · exact le_refl _
                · rw [List.pairwise_cons] at hsortRest
                  exact hsortRest.1 e he4
              have h3 := le_trans hwlen (Nat.min_le_left _ _)
              rw [h00] at h3
              omega
        · exact o.vsub _ (hexp m2 hm2)
        · omega
  · intro w hw hmem
    by_cases hold : get_state_string (reachNT c w) ∈ V
    · rcases inv.pend w hw hold with ⟨e, he, he1, he2⟩ | hexp | hbig
      · rcases List.mem_cons.mp he with rfl | he3
        · right; left
          intro m hm
          have ht := state_string_child_transfer cur (reachNT c w) he1 m
          rw [reachNT_append_one, ← ht.1, hcurchild]
          exact (hchild m hm).2
        · left
          refine ⟨e, ?_, he1, he2⟩
          rw [hQ2]
          exact List.mem_append_left _ he3
      · right; left
        exact fun m hm => o.vsub _ (hexp m hm)
      · right; right
        exact hbig
    · rcases o.newPending _ hmem with h1 | ⟨e, he, he1, he2, _⟩
      · exact absurd h1 hold
      · left
        refine ⟨e, he, he1, ?_⟩
        by_contra hlt2
        push_neg at hlt2
        have hwle : w.length ≤ path.length := by omega
        exact hold (inv.covered (cur, path) rfl w hw
          (by rw [hminpath]; exact hwle))
  · intro v hv
    rcases o.newReach v hv with h1 | ⟨m, hm, h2⟩
    · exact inv.vReach v h1
    · refine ⟨path ++ [m], ?_, ?_, ?_⟩
      · intro x hx
        rcases List.mem_append.mp hx with h3 | h3
        · exact hcanon x h3
        · rw [List.mem_singleton] at h3
          subst h3
          exact hm
      · simp only [List.length_append, List.length_singleton]
        omega
      · rw [h2, copy_eq, hcurchild]

/-- What a returned BFS path satisfies: within depth, canonical, solving,
and no strictly shorter canonical sequence solves the start state. -/
def BfsConcl (c : RubiksCube) (maxd : Nat) (p : List String) : Prop :=
  p.length ≤ maxd ∧ (∀ m ∈ p, m ∈ moves12) ∧
    is_solved (reachNT c p) = true ∧
    ∀ w, (∀ m ∈ w, m ∈ moves12) → w.length < p.length →
      is_solved (reachNT c w) = false

lemma bfsLoop_nil (maxd fuel : Nat) (V : List String) :
    bfsLoop maxd fuel [] V = none := by
  cases fuel <;> rfl

lemma bfsLoop_zero (maxd : Nat) (Q : List (RubiksCube × List String))
    (V : List String) : bfsLoop maxd 0 Q V = none := by
  cases Q <;> rfl

lemma bfsLoop_succ_skip (maxd n : Nat) (cur : RubiksCube)
    (path : List String) (rest : List (RubiksCube × List String))
    (V : List String) (hge : path.length ≥ maxd) :
    bfsLoop maxd (n + 1) ((cur, path) :: rest) V =
      bfsLoop maxd n rest V := by
  show (if path.length ≥ maxd then bfsLoop maxd n rest V
    else match expandChildren cur path moves12 rest V with
      | Except.error sol => some sol
      | Except.ok (q2, v2) => bfsLoop maxd n q2 v2) = bfsLoop maxd n rest V
  rw [if_pos hge]

lemma bfsLoop_succ_error (maxd n : Nat) (cur : RubiksCube)
    (path : List String) (rest : List (RubiksCube × List String))
    (V : List String) (sol : List String) (hlt : path.length < maxd)
    (hup : expandChildren cur path moves12 rest V = Except.error sol) :
    bfsLoop maxd (n + 1) ((cur, path) :: rest) V = some sol := by
  show (if path.length ≥ maxd then bfsLoop maxd n rest V
    else match expandChildren cur path moves12 rest V with
      | Except.error sol => some sol
      | Except.ok (q2, v2) => bfsLoop maxd n q2 v2) = some sol
  rw [if_neg (by omega : ¬path.length ≥ maxd), hup]

lemma bfsLoop_succ_ok (maxd n : Nat) (cur : RubiksCube)
    (path : List String) (rest q2 : List (RubiksCube × List String))
    (V v2 : List String) (hlt : path.length < maxd)
    (hup : expandChildren cur path moves12 rest V = Except.ok (q2, v2)) :
    bfsLoop maxd (n + 1) ((cur, path) :: rest) V =
      bfsLoop maxd n q2 v2 := by
  show (if path.length ≥ maxd then bfsLoop maxd n rest V
    else match expandChildren cur path moves12 rest V with
      | Except.error sol => some sol
      | Except.ok (q2, v2) => bfsLoop maxd n q2 v2) = bfsLoop maxd n q2 v2
  rw [if_neg (by omega : ¬path.length ≥ maxd), hup]

lemma bfsLoop_sound (c : RubiksCube) (maxd : Nat) :
    ∀ (fuel : Nat) (Q : List (RubiksCube × List String)) (V : List String)
      (p : List String), BfsInv c maxd Q V →
      bfsLoop maxd fuel Q V = some p → BfsConcl c maxd p := by
  intro fuel
  induction fuel with
  | zero =>
    intro Q V p inv h
    rw [bfsLoop_zero] at h
    exact absurd h (by simp)
  | succ n ih =>
    intro Q V p inv h
    cases Q with
    | nil =>
      rw [bfsLoop_nil] at h
      exact absurd h (by simp)
    | cons e rest =>
      obtain ⟨cur, path⟩ := e
      by_cases hskip : path.length ≥ maxd
      · rw [bfsLoop_succ_skip maxd n cur path rest V hskip] at h
        exact ih rest V p (BfsInv_skip c maxd (cur, path) rest V inv hskip)
          h
      · push_neg at hskip
        cases hup : expandChildren cur path moves12 rest V with
        | error sol =>
          rw [bfsLoop_succ_error maxd n cur path rest V sol hskip hup] at h
          simp only [Option.some.injEq] at h
          subst h
          obtain ⟨m, hm, hsolEq, hsolved⟩ :=
            expandChildren_error_spec cur path moves12 rest V _ hup
          subst hsolEq
          have hent := inv.entries (cur, path) (List.mem_cons_self _ _)
          have hcur : cur = reachNT c path := hent.1
          have hcanon : ∀ x ∈ path, x ∈ moves12 := hent.2.1
          refine ⟨?_, ?_, ?_, ?_⟩
          · simp only [List.length_append, List.length_singleton]
            omega
          · intro x hx
            rcases List.mem_append.mp hx with h1 | h1
            · exact hcanon x h1
            · rw [List.mem_singleton] at h1
              subst h1
              exact hm
          · rw [reachNT_append_one, ← hcur]
            rw [copy_eq] at hsolved
            exact hsolved
          · intro w hw hwlen
            have hwle : w.length ≤ path.length := by
              simp only [List.length_append, List.length_singleton]
                at hwlen
              omega
            have hmem : get_state_string (reachNT c w) ∈ V :=
              inv.covered (cur, path) rfl w hw
                (by show w.length ≤ min path.length maxd; omega)
            exact not_solved_of_state_string_ne _ (inv.vUnsolved _ hmem)
        | ok pr =>
          obtain ⟨q2, v2⟩ := pr
          rw [bfsLoop_succ_ok maxd n cur path rest q2 V v2 hskip hup] at h
          exact ih q2 v2 p
            (BfsInv_step c maxd cur path rest q2 V v2 inv hskip hup) h

lemma solve_bfs_spec (c : RubiksCube) (maxd : Nat) (p : List String)
    (h : solve_bfs c maxd = some p) : BfsConcl c maxd p := by
  by_cases hs : is_solved c = true
  · rw [solve_bfs, if_pos hs] at h
    simp only [Option.some.injEq] at h
    subst h
    refine ⟨by simp, by simp, by rw [reachNT_nil]; exact hs, ?_⟩
    intro w hw hlt
    exact absurd hlt (by simp)
  · have hs2 : is_solved c = false := by
      rcases hb : is_solved c with _ | _
      · rfl
      · exact absurd hb hs
    rw [solve_bfs, if_neg hs] at h
    exact bfsLoop_sound c maxd (max_nodes + 1) _ _ p
      (BfsInv_init c maxd hs2) h

/-! ### Completeness of the search within the depth limit -/

/-- All canonical move sequences of exactly length `n`. -/
def seqsExact : Nat → List (List String)
  | 0 => [[]]
  | n + 1 =>
    (seqsExact n).flatMap (fun w => moves12.map (fun m => w ++ [m]))

/-- All canonical move sequences of length at most `n`. -/
def seqsUpTo : Nat → List (List String)
  | 0 => [[]]
  | n + 1 => seqsUpTo n ++ seqsExact (n + 1)

lemma seqsExact_complete :
    ∀ (n : Nat) (w : List String), (∀ m ∈ w, m ∈ moves12) →
      w.length = n → w ∈ seqsExact n := by
  intro n
  induction n with
  | zero =>
    intro w hw h0
    rw [List.eq_nil_of_length_eq_zero h0]
    simp [seqsExact]
  | succ k ih =>
    intro w hw hlen
    rcases List.eq_nil_or_concat w with rfl | ⟨w2, m, hcc⟩
    · simp at hlen
    · rw [List.concat_eq_append] at hcc
      subst hcc
      have hw2 : ∀ x ∈ w2, x ∈ moves12 :=
        fun x hx => hw x (List.mem_append_left _ hx)
      have hm : m ∈ moves12 :=
        hw m (List.mem_append_right _ (List.mem_singleton_self _))
      have hl2 : w2.length = k := by
        simp only [List.length_append, List.length_singleton] at hlen
        omega
      simp only [seqsExact, List.mem_flatMap]
      exact ⟨w2, ih w2 hw2 hl2, List.mem_map.mpr ⟨m, hm, rfl⟩⟩

lemma seqsUpTo_complete :
    ∀ (n : Nat) (w : List String), (∀ m ∈ w, m ∈ moves12) →
      w.length ≤ n → w ∈ seqsUpTo n := by
  intro n
  induction n with
  | zero =>
    intro w hw h0
    rw [List.eq_nil_of_length_eq_zero (Nat.le_zero.mp h0)]
    simp [seqsUpTo]
  | succ k ih =>
    intro w hw hlen
    by_cases hk : w.length ≤ k
    · show w ∈ seqsUpTo k ++ seqsExact (k + 1)
      exact List.mem_append_left _ (ih w hw hk)
    · show w ∈ seqsUpTo k ++ seqsExact (k + 1)
      exact List.mem_append_right _
        (seqsExact_complete (k + 1) w hw (by omega))

/-- If the queue is empty but a canonical solution within the depth limit
exists, the invariant is contradictory: the search would have generated
the solved serialization. -/
lemma bfs_exhausted_absurd (c : RubiksCube) (maxd : Nat) (V : List String)
    (inv : BfsInv c maxd [] V) (w : List String)
    (hw : ∀ m ∈ w, m ∈ moves12) (hlen : w.length ≤ maxd)
    (hsolved : is_solved (reachNT c w) = true) : False := by
  have aux : ∀ (v u : List String), w = u ++ v →
      get_state_string (reachNT c u) ∈ V → False := by
    intro v
    induction v with
    | nil =>
      intro u hu hmem
      rw [List.append_nil] at hu
      subst hu
      exact inv.vUnsolved _ hmem ((is_solved_iff_state_string _).mp hsolved)
    | cons m v2 ih =>
      intro u hu hmem
      have hucanon : ∀ x ∈ u, x ∈ moves12 := fun x hx =>
        hw x (by rw [hu]; exact List.mem_append_left _ hx)
      have hm : m ∈ moves12 := by
        refine hw m ?_
        rw [hu]
        exact List.mem_append_right _ (List.mem_cons_self _ _)
      have hulen : u.length < w.length := by
        rw [hu]
        simp only [List.length_append, List.length_cons]
        omega
      rcases inv.pend u hucanon hmem with ⟨e, he, _, _⟩ | hexp | hbig
      · exact absurd he (List.not_mem_nil e)
      · exact ih (u ++ [m]) (by rw [hu, List.append_assoc]; rfl)
          (hexp m hm)
      · omega
  exact aux w [] rfl (by rw [reachNT_nil]; exact inv.rootMem)

lemma bfsLoop_finds (c : RubiksCube) (maxd : Nat) (w : List String)
    (hw : ∀ m ∈ w, m ∈ moves12) (hwlen : w.length ≤ maxd)
    (hwsolved : is_solved (reachNT c w) = true) :
    ∀ (fuel : Nat) (Q : List (RubiksCube × List String))
      (V : List String), BfsInv c maxd Q V →
      Q.length + (seqsUpTo maxd).length ≤ fuel + V.length →
      ∃ p, bfsLoop maxd fuel Q V = some p := by
  intro fuel
  induction fuel with
  | zero =>
    intro Q V inv hsize
    have hVB : V.length ≤ (seqsUpTo maxd).length := by
      have hsub : V ⊆ (seqsUpTo maxd).map
          (fun u => get_state_string (reachNT c u)) := by
        intro v hv
        obtain ⟨u, hu1, hu2, hu3⟩ := inv.vReach v hv
        rw [hu3]
        exact List.mem_map_of_mem _ (seqsUpTo_complete maxd u hu1 hu2)
      calc V.length ≤ ((seqsUpTo maxd).map
            (fun u => get_state_string (reachNT c u))).length :=
            (inv.vNodup.subperm hsub).length_le
        _ = (seqsUpTo maxd).length := List.length_map _ _
    have hQ0 : Q = [] := by
      cases Q with
      | nil => rfl
      | cons e rest =>
        exfalso
        simp only [List.length_cons] at hsize
        omega
    subst hQ0
    exact (bfs_exhausted_absurd c maxd V inv w hw hwlen hwsolved).elim
  | succ n ih =>
    intro Q V inv hsize
    cases Q with
    | nil => exact (bfs_exhausted_absurd c maxd V inv w hw hwlen
        hwsolved).elim
    | cons e rest =>
      obtain ⟨cur, path⟩ := e
      by_cases hskip : path.length ≥ maxd
      · rw [bfsLoop_succ_skip maxd n cur path rest V hskip]
        refine ih rest V
          (BfsInv_skip c maxd (cur, path) rest V inv hskip) ?_
        simp only [List.length_cons] at hsize
        omega
      · push_neg at hskip
        cases hup : expandChildren cur path moves12 rest V with
        | error sol =>
          exact ⟨sol,
            bfsLoop_succ_error maxd n cur path rest V sol hskip hup⟩
        | ok pr =>
          obtain ⟨q2, v2⟩ := pr
          rw [bfsLoop_succ_ok maxd n cur path rest q2 V v2 hskip hup]
          refine ih q2 v2
            (BfsInv_step c maxd cur path rest q2 V v2 inv hskip hup) ?_
          have hsz :=
            (expandChildren_ok_spec cur path moves12 rest q2 V v2 hup).sizes
          simp only [List.length_cons] at hsize
          omega

lemma solve_bfs_complete (c : RubiksCube) (maxd : Nat) (w : List String)
    (hw : ∀ m ∈ w, m ∈ moves12) (hwlen : w.length ≤ maxd)
    (hwsolved : is_solved (reachNT c w) = true)
    (hB : (seqsUpTo maxd).length ≤ max_nodes + 1) :
    ∃ p, solve_bfs c maxd = some p := by
  by_cases hs : is_solved c = true
  · exact ⟨[], by rw [solve_bfs, if_pos hs]⟩
  · have hs2 : is_solved c = false := by
      rcases hb : is_solved c with _ | _
      · rfl
      · exact absurd hb hs
    rw [solve_bfs, if_neg hs]
    refine bfsLoop_finds c maxd w hw hwlen hwsolved (max_nodes + 1) _ _
      (BfsInv_init c maxd hs2) ?_
    simp only [List.length_cons, List.length_nil]
    omega

/-! ### Concrete facts about short scrambles -/

lemma pair_state_unsolved :
    ∀ m1 ∈ moves12, ∀ m2 ∈ moves12, m2 ≠ get_reverse_move m1 →
      is_solved (apply_moves_list initial_cube [m1, m2] true) = false := by
  decide

set_option maxRecDepth 100000 in
lemma pair_state_no_one_move :
    ∀ m1 ∈ moves12, ∀ m2 ∈ moves12, m2 ≠ get_reverse_move m1 →
      ∀ m3 ∈ moves12,
        is_solved (apply_move (apply_moves_list initial_cube [m1, m2] true)
          m3 false) = false := by
  decide

set_option maxRecDepth 100000 in
lemma seqsUpTo_one_small : (seqsUpTo 1).length ≤ max_nodes + 1 := by decide

set_option maxRecDepth 100000 in
lemma seqsUpTo_two_small : (seqsUpTo 2).length ≤ max_nodes + 1 := by decide

/-- **C4.** When `solve_bfs` returns a path (so neither budget interrupted
it), the path is within the depth limit, replaying it solves the start
state, and no strictly shorter canonical sequence does; in particular any
single scramble move is undone by a 1-move solution at depth 1, and any
two non-cancelling scramble moves by a 2-move solution at depth 2, never
longer. -/
theorem C4_bfs_shortest_path :
    (∀ (cube : RubiksCube) (d : Nat) (p : List String),
      solve_bfs cube d = some p →
        p.length ≤ d ∧
          is_solved (apply_moves_list cube p false) = true ∧
          ∀ w, (∀ m ∈ w, m ∈ moves12) → w.length < p.length →
            is_solved (apply_moves_list cube w false) = false) ∧
    (∀ m ∈ moves12, ∃ p,
      solve_bfs (apply_move initial_cube m true) 1 = some p ∧
        p.length = 1) ∧
    (∀ m1 ∈ moves12, ∀ m2 ∈ moves12, m2 ≠ get_reverse_move m1 → ∃ p,
      solve_bfs (apply_moves_list initial_cube [m1, m2] true) 2 = some p ∧
        p.length = 2) := by
  refine ⟨?_, ?_, ?_⟩
  · intro cube d p h
    obtain ⟨h1, _, h3, h4⟩ := solve_bfs_spec cube d p h
    exact ⟨h1, h3, h4⟩
  · intro m hm
    have hrev : get_reverse_move m ∈ moves12 := get_reverse_move_mem m hm
    have hcuns : is_solved (apply_move initial_cube m true) = false :=
      one_move_unsolved m hm
    have hsolved : is_solved
        (reachNT (apply_move initial_cube m true) [get_reverse_move m]) =
          true := by
      have hone : reachNT (apply_move initial_cube m true)
          [get_reverse_move m] =
          apply_move (apply_move initial_cube m true)
            (get_reverse_move m) false := rfl
      rw [hone, faces_eq_is_solved _ initial_cube
        (move_inverse_restores_faces initial_cube m true false hm)]
      decide
    obtain ⟨p, hp⟩ := solve_bfs_complete
      (apply_move initial_cube m true) 1 [get_reverse_move m]
      (by intro x hx; rw [List.mem_singleton] at hx; subst hx; exact hrev)
      (by simp) hsolved seqsUpTo_one_small
    refine ⟨p, hp, ?_⟩
    obtain ⟨hle, hcanon, hsolv, hopt⟩ :=
      solve_bfs_spec (apply_move initial_cube m true) 1 p hp
    rcases Nat.lt_or_ge p.length 1 with h1 | h1
    · exfalso
      have hpnil : p = [] := List.eq_nil_of_length_eq_zero (by omega)
      subst hpnil
      rw [reachNT_nil, hcuns] at hsolv
      exact absurd hsolv (by simp)
    · omega
  · intro m1 hm1 m2 hm2 hne
    have hrev1 : get_reverse_move m1 ∈ moves12 :=
      get_reverse_move_mem m1 hm1
    have hrev2 : get_reverse_move m2 ∈ moves12 :=
      get_reverse_move_mem m2 hm2
    have hcuns := pair_state_unsolved m1 hm1 m2 hm2 hne
    have hA : apply_moves_list initial_cube [m1, m2] true =
        apply_move (apply_move initial_cube m1 true) m2 true := rfl
    have hsolved : is_solved (reachNT
        (apply_moves_list initial_cube [m1, m2] true)
        [get_reverse_move m2, get_reverse_move m1]) = true := by
      have hr : reachNT (apply_moves_list initial_cube [m1, m2] true)
          [get_reverse_move m2, get_reverse_move m1] =
          apply_move (apply_move
            (apply_moves_list initial_cube [m1, m2] true)
            (get_reverse_move m2) false) (get_reverse_move m1) false := rfl
      have s1 : (apply_move (apply_moves_list initial_cube [m1, m2] true)
          (get_reverse_move m2) false).faces =
          (apply_move initial_cube m1 true).faces := by
        rw [hA]
        exact move_inverse_restores_faces
          (apply_move initial_cube m1 true) m2 true false hm2
      have s2 : (apply_move (apply_move
          (apply_moves_list initial_cube [m1, m2] true)
          (get_reverse_move m2) false) (get_reverse_move m1) false).faces =
          initial_cube.faces := by
        rw [apply_move_faces, s1, ← apply_move_faces]
        exact move_inverse_restores_faces initial_cube m1 true false hm1
      rw [hr, faces_eq_is_solved _ initial_cube s2]
      decide
    obtain ⟨p, hp⟩ := solve_bfs_complete
      (apply_moves_list initial_cube [m1, m2] true) 2
      [get_reverse_move m2, get_reverse_move m1]
      (by
        intro x hx
        rcases List.mem_cons.mp hx with rfl | hx2
        · exact hrev2
        · rw [List.mem_singleton] at hx2
          subst hx2
          exact hrev1)
      (by simp) hsolved seqsUpTo_two_small
    refine ⟨p, hp, ?_⟩
    obtain ⟨hle, hcanon, hsolv, hopt⟩ := solve_bfs_spec _ 2 p hp
    cases p with
    | nil =>
      exfalso
      rw [reachNT_nil, hcuns] at hsolv
      exact absurd hsolv (by simp)
    | cons m3 ptail =>
      cases ptail with
      | nil =>
        exfalso
        have hm3 : m3 ∈ moves12 := hcanon m3 (by simp)
        have hone : reachNT (apply_moves_list initial_cube [m1, m2] true)
            [m3] = apply_move (apply_moves_list initial_cube [m1, m2] true)
              m3 false := rfl
        rw [hone, pair_state_no_one_move m1 hm1 m2 hm2 hne m3 hm3]
          at hsolv
        exact absurd hsolv (by simp)
      | cons m4 prest =>
        have hnil : prest = [] := by
          simp only [List.length_cons] at hle
          exact List.eq_nil_of_length_eq_zero (by omega)
        subst hnil
        rfl

/-- Witness for C4: the single scramble move F is undone by a 1-move
solution at depth 1. -/
theorem C4_witness :
    ∃ p, solve_bfs (apply_move initial_cube sF true) 1 = some p ∧
      p.length = 1 :=
  C4_bfs_shortest_path.2.1 sF (by decide)

/-! ### Claims C2 and C9: the orchestrator -/

lemma bfs_first_spec (cube : RubiksCube) : ∀ ds : List Nat,
    bfs_first cube ds = [] ∨
      is_solved (apply_moves_list cube (bfs_first cube ds) false) = true := by
  intro ds
  induction ds with
  | nil => exact Or.inl rfl
  | cons d rest ih =>
    have hstep : bfs_first cube (d :: rest) =
        match solve_bfs cube d with
        | some sol => if sol ≠ [] then sol else bfs_first cube rest
        | none => bfs_first cube rest := rfl
    cases hbfs : solve_bfs cube d with
    | some sol =>
      have hconcl := solve_bfs_spec cube d sol hbfs
      rw [hstep, hbfs]
      try dsimp only
      by_cases hne : sol = []
      · rw [if_neg (not_not_intro hne)]
        exact ih
      · rw [if_pos hne]
        exact Or.inr hconcl.2.2.1
    | none =>
      rw [hstep, hbfs]
      exact ih

lemma solve_cube_cases (avail : Bool) (resp : Except Unit String)
    (cube : RubiksCube) :
    (solve_cube avail resp cube).1 = [] ∨
      is_solved (apply_moves_list (copy cube)
        (solve_cube avail resp cube).1 false) = true := by
  rw [solve_cube]
  split
  · exact Or.inl rfl
  · try dsimp only
    split
    · next sol heq =>
      right
      split at heq
      · split at heq
        · next hver =>
          simp only [Option.some.injEq] at heq
          subst heq
          exact hver
        · exact absurd heq (by simp)
      · exact absurd heq (by simp)
    · next heq =>
      try dsimp only
      split
      · next sol heq2 =>
        right
        split at heq2
        · split at heq2
          · next ks hks =>
            split at heq2
            · split at heq2
              · next hver =>
                simp only [Option.some.injEq] at heq2
                subst heq2
                exact hver
              · exact absurd heq2 (by simp)
            · exact absurd heq2 (by simp)
          · exact absurd heq2 (by simp)
        · exact absurd heq2 (by simp)
      · next heq2 =>
        rw [copy_eq]
        exact bfs_first_spec cube _

/-- **C2.** Whenever `solve_cube` returns a non-empty move sequence,
whichever of the three strategies produced it, replaying that sequence on
a copy of the pre-solve state yields a solved cube. -/
theorem C2_solution_verifies (avail : Bool) (resp : Except Unit String)
    (cube : RubiksCube) (p : List String)
    (h1 : (solve_cube avail resp cube).1 = p) (h2 : p ≠ []) :
    is_solved (apply_moves_list (copy cube) p false) = true := by
  subst h1
  rcases solve_cube_cases avail resp cube with h | h
  · exact absurd h h2
  · exact h

/-- Witness for C2: one tracked front turn, solved back by the history
reversal strategy. -/
theorem C2_witness :
    is_solved (apply_moves_list (copy (apply_move initial_cube sF true))
      [sFp] false) = true :=
  C2_solution_verifies false (Except.error ())
    (apply_move initial_cube sF true) [sFp] (by decide) (by decide)

/-- **C9.** `solve_cube` never mutates the cube it is handed: the
receiver state threaded through the call comes back unchanged, and the
copies handed to verification and search equal the original as values. -/
theorem C9_solve_cube_preserves_state :
    (∀ (avail : Bool) (resp : Except Unit String) (cube : RubiksCube),
      (solve_cube avail resp cube).2 = cube) ∧
    (∀ cube : RubiksCube, copy cube = cube) := by
  refine ⟨fun avail resp cube => ?_, copy_eq⟩
  rw [solve_cube]
  split
  · rfl
  · try dsimp only
    split
    · rfl
    · try dsimp only
      split
      · rfl
      · rfl
